import Mathlib

/-!
Shallow embedding of `bot.py` from the discord-vjudge-bot repository.

Python strings are modelled as `List Char`.  Functions that can raise a
Python exception are modelled with `Option` (`none` = the call raises).
The two persistence backends (asyncpg / aiosqlite) are modelled as pure
operations on lists of rows, one definition per backend, mirroring the
duplicated SQL statements in the source.
-/

/-- The whitespace characters recognised by CPython's `str.split()` and
`str.strip()`: 0x09-0x0d, 0x1c-0x1f, space, NEL, NBSP, and the unicode
space separators 0x1680, 0x2000-0x200a, 0x2028, 0x2029, 0x202f, 0x205f,
0x3000. -/
def isPySpace (c : Char) : Bool :=
  decide (0x09 ≤ c.toNat ∧ c.toNat ≤ 0x0d) ||
  decide (0x1c ≤ c.toNat ∧ c.toNat ≤ 0x20) ||
  decide (0x2000 ≤ c.toNat ∧ c.toNat ≤ 0x200a) ||
  [0x85, 0xa0, 0x1680, 0x2028, 0x2029, 0x202f, 0x205f, 0x3000].contains c.toNat

/-- Accumulator-style worker for `pySplit`: `cur` holds the (reversed)
characters of the token currently being read. -/
def pySplitAux (cur : List Char) : List Char → List (List Char)
  | [] => if cur.isEmpty then [] else [cur.reverse]
  | c :: rest =>
    if isPySpace c then
      if cur.isEmpty then pySplitAux [] rest
      else cur.reverse :: pySplitAux [] rest
    else pySplitAux (c :: cur) rest

/-- Python `s.split()` with no separator: tokens are maximal runs of
non-whitespace characters; leading/trailing whitespace yields no empty
tokens. -/
def pySplit (s : List Char) : List (List Char) :=
  pySplitAux [] s

/-- The line-boundary characters of CPython's `str.splitlines()`:
`\n`, `\v`, `\f`, `\r`, the file/group/record separators 0x1c-0x1e,
NEL, and the unicode line/paragraph separators 0x2028 and 0x2029
(`\r\n` is treated as a single boundary by `splitlinesAux`). -/
def isPyLineBreak (c : Char) : Bool :=
  decide (0x0a ≤ c.toNat ∧ c.toNat ≤ 0x0d) ||
  decide (0x1c ≤ c.toNat ∧ c.toNat ≤ 0x1e) ||
  [0x85, 0x2028, 0x2029].contains c.toNat

/-- Accumulator-style worker for `splitlines`. -/
def splitlinesAux (cur : List Char) : List Char → List (List Char)
  | [] => if cur.isEmpty then [] else [cur.reverse]
  | '\r' :: '\n' :: rest => cur.reverse :: splitlinesAux [] rest
  | c :: rest =>
    if isPyLineBreak c then cur.reverse :: splitlinesAux [] rest
    else splitlinesAux (c :: cur) rest

/-- Python `s.splitlines()` over the CPython line boundaries, `\r\n`
counting as one; no trailing empty line is produced. -/
def splitlines (s : List Char) : List (List Char) :=
  splitlinesAux [] s

/-- `startsWithL needle hay` is true when `needle` is an initial segment
of `hay`. -/
def startsWithL : List Char → List Char → Bool
  | [], _ => true
  | _ :: _, [] => false
  | a :: as, b :: bs => a == b && startsWithL as bs

/-- Python's substring test `needle in hay`. -/
def hasSubstr (needle : List Char) : List Char → Bool
  | [] => startsWithL needle []
  | c :: t => startsWithL needle (c :: t) || hasSubstr needle t

/-- The transient verdict dictionary built by `oj_get_result`
(keys verdict / time / memory). -/
structure VerdictResult where
  verdict : List Char
  time : List Char
  memory : List Char
deriving DecidableEq, Repr

/-- The sentinel returned by `oj_get_result` when no stdout line contains
the submission id. -/
def unknownResult : VerdictResult :=
  ⟨"Unknown".toList, "N/A".toList, "N/A".toList⟩

/-- The synthetic sentinel built at line 234 of `bot.py` for an exhausted
poll budget. -/
def timeoutResult : VerdictResult :=
  ⟨"Timeout".toList, "N/A".toList, "N/A".toList⟩

/-- The line scan of `oj_get_result` (bot.py lines 60-69): return the
positional fields of the first line containing `sid`; `none` models the
`IndexError` raised when that line has too few whitespace tokens; the
`Unknown` sentinel is returned when no line matches. -/
def scanLines (sid : List Char) : List (List Char) → Option VerdictResult
  | [] => some unknownResult
  | line :: rest =>
    if hasSubstr sid line then
      let parts := pySplit line
      if h : 5 < parts.length then
        some ⟨parts.get ⟨3, by omega⟩, parts.get ⟨4, by omega⟩, parts.get ⟨5, h⟩⟩
      else none
    else scanLines sid rest

/-- `oj_get_result` after a zero exit status: parse the captured stdout
for the row describing submission `sid`. -/
def oj_get_result (stdout sid : List Char) : Option VerdictResult :=
  scanLines sid (splitlines stdout)

/-- The submission-id extraction of `oj_submit` (bot.py line 52):
`cp.stdout.strip().split()[-1]`.  `none` models the `IndexError` raised
by `[-1]` on an empty token list. -/
def oj_submit_id (stdout : List Char) : Option (List Char) :=
  (pySplit stdout).getLast?

/-- The in-progress test of the poll loop (bot.py line 230):
`verdict_data["verdict"].lower() in ("running", "judging")`. -/
def inProgress (v : VerdictResult) : Bool :=
  v.verdict.map Char.toLower == "running".toList ||
    v.verdict.map Char.toLower == "judging".toList

/-- Outcome of the `for _ in range(30)` poll loop of `submit`
(bot.py lines 227-232). -/
inductive PollOutcome where
  /-- `oj_get_result` raised on some call; `calls` fetch attempts were
  made, the exception is caught at the orchestrator boundary. -/
  | raised (calls : Nat)
  /-- The loop left `verdict_data = vd` after `calls` fetch attempts. -/
  | finished (vd : Option VerdictResult) (calls : Nat)
deriving DecidableEq, Repr

/-- The poll loop itself: `fetch k` is the result of the `(k+1)`-st
`oj_get_result` call (`none` = that call raises).  `n` is the number of
remaining iterations, `calls` the number of fetches already made, and the
third argument the current value of the Python variable `verdict_data`. -/
def pollAux (fetch : Nat → Option VerdictResult) :
    Nat → Nat → Option VerdictResult → PollOutcome
  | 0, calls, vd => PollOutcome.finished vd calls
  | n + 1, calls, _ =>
    match fetch calls with
    | none => PollOutcome.raised (calls + 1)
    | some vd =>
      if inProgress vd then pollAux fetch n (calls + 1) (some vd)
      else PollOutcome.finished (some vd) (calls + 1)

/-- The poll loop as entered by `submit`: `verdict_data = None`, thirty
iterations. -/
def pollResult (fetch : Nat → Option VerdictResult) : PollOutcome :=
  pollAux fetch 30 0 none

/-- One row of the `users` table. -/
structure UserRow where
  user_id : Int
  username : List Char
  password : List Char
deriving DecidableEq, Repr

/-- One row of the `solves` table.  The surrogate `id` column is
omitted: no query reads it, and the conflict target is the triple. -/
structure SolveRow where
  user_id : Int
  judge : List Char
  problem_id : List Char
deriving DecidableEq, Repr

/-- The Postgres credential upsert of `vjudge_link` (bot.py lines
158-164): `INSERT INTO users ... ON CONFLICT(user_id) DO UPDATE SET
username, password`.  The primary key guarantees at most one row per
`user_id`, so updating the first match models the conflict clause. -/
def pg_upsert_user : List UserRow → Int → List Char → List Char → List UserRow
  | [], uid, un, pw => [⟨uid, un, pw⟩]
  | r :: rest, uid, un, pw =>
    if r.user_id = uid then ⟨uid, un, pw⟩ :: rest
    else r :: pg_upsert_user rest uid un pw

/-- The SQLite credential upsert of `vjudge_link` (bot.py lines
168-175), same statement against the embedded engine. -/
def sqlite_upsert_user : List UserRow → Int → List Char → List Char → List UserRow
  | [], uid, un, pw => [⟨uid, un, pw⟩]
  | r :: rest, uid, un, pw =>
    if r.user_id = uid then ⟨uid, un, pw⟩ :: rest
    else r :: sqlite_upsert_user rest uid un pw

/-- The Postgres solve insert of `submit` (bot.py lines 245-249):
`INSERT INTO solves ... ON CONFLICT DO NOTHING`. -/
def pg_record_solve (t : List SolveRow) (uid : Int) (j p : List Char) : List SolveRow :=
  if (⟨uid, j, p⟩ : SolveRow) ∈ t then t else t ++ [⟨uid, j, p⟩]

/-- The SQLite solve insert of `submit` (bot.py lines 252-255):
`INSERT OR IGNORE INTO solves ...`. -/
def sqlite_record_solve (t : List SolveRow) (uid : Int) (j p : List Char) : List SolveRow :=
  if (⟨uid, j, p⟩ : SolveRow) ∈ t then t else t ++ [⟨uid, j, p⟩]

/-- Step 4 of `submit` (bot.py lines 241-256): record the solve when the
final verdict is "accepted" case-insensitively; `usePg` is the truthiness
of `db_pool`. -/
def record_if_accepted (usePg : Bool) (t : List SolveRow) (uid : Int)
    (j p : List Char) (v : VerdictResult) : List SolveRow :=
  if v.verdict.map Char.toLower == "accepted".toList then
    if usePg then pg_record_solve t uid j p else sqlite_record_solve t uid j p
  else t

/-- The replies `submit` can send through `safe_respond`. -/
inductive Reply where
  /-- The prompt to link credentials first (bot.py lines 207-210). -/
  | notLinked
  /-- The catch-all submission-error message (bot.py lines 236-239). -/
  | submissionError
  /-- The verdict embed of step 5 (bot.py lines 258-270). -/
  | verdictEmbed (v : VerdictResult)
deriving DecidableEq, Repr

/-- The external world seen by one run of `submit`: the credential row
fetched in step 1, whether `oj_login` succeeds, the id returned by
`oj_submit` (`none` = it raises), and the successive `oj_get_result`
results. -/
structure SubmitEnv where
  credRow : Option (List Char × List Char)
  loginOk : Bool
  submitId : Option (List Char)
  fetch : Nat → Option VerdictResult

/-- Observable effects of one run of `submit`. -/
structure SubmitEffects where
  loginCalls : Nat
  tempFiles : Nat
  submitCalls : Nat
  fetchCalls : Nat
  ledger : List SolveRow
  reply : Reply
deriving DecidableEq, Repr

/-- The `submit` command body (bot.py lines 186-270): credential lookup,
login, temporary-file staging, submission, poll loop with the dead-code
timeout guard `if not verdict_data`, conditional solve recording, and the
final reply. -/
def submit (env : SubmitEnv) (usePg : Bool) (ledger : List SolveRow)
    (uid : Int) (j p : List Char) : SubmitEffects :=
  match env.credRow with
  | none => ⟨0, 0, 0, 0, ledger, Reply.notLinked⟩
  | some _ =>
    if env.loginOk then
      match env.submitId with
      | none => ⟨1, 1, 1, 0, ledger, Reply.submissionError⟩
      | some _ =>
        match pollResult env.fetch with
        | PollOutcome.raised calls => ⟨1, 1, 1, calls, ledger, Reply.submissionError⟩
        | PollOutcome.finished vd calls =>
          let v := vd.getD timeoutResult
          ⟨1, 1, 1, calls, record_if_accepted usePg ledger uid j p v,
            Reply.verdictEmbed v⟩
    else ⟨1, 0, 0, 0, ledger, Reply.submissionError⟩

/-- The exceptions distinguished by `safe_respond`. -/
inductive DiscordException where
  /-- `discord.Forbidden`, the only caught class. -/
  | forbidden
  /-- Any other exception from the send. -/
  | other
deriving DecidableEq, Repr

/-- Observable effects of one `safe_respond` call. -/
structure RespondTrace where
  primaryAttempts : Nat
  dmSends : Nat
  raised : Option DiscordException
deriving DecidableEq, Repr

/-- `safe_respond` (bot.py lines 127-132): try `ctx.respond`, falling
back to one `ctx.author.send` only on `discord.Forbidden`.  `primary` and
`dm` are the exceptions (if any) the two sends would raise. -/
def safe_respond (primary dm : Option DiscordException) : RespondTrace :=
  match primary with
  | none => ⟨1, 0, none⟩
  | some DiscordException.forbidden => ⟨1, 1, dm⟩
  | some DiscordException.other => ⟨1, 0, some DiscordException.other⟩

/-- Per-user solve count: `COUNT(*) ... GROUP BY user_id`. -/
def solveCount (t : List SolveRow) (uid : Int) : Nat :=
  t.countP fun r => r.user_id == uid

/-- The distinct users appearing in the `solves` table. -/
def ledgerUsers (t : List SolveRow) : List Int :=
  (t.map SolveRow.user_id).dedup

/-- The leaderboard query of `leaderboard` (bot.py lines 276-290):
`SELECT user_id, COUNT(*) AS solves FROM solves GROUP BY user_id ORDER BY
solves DESC`.  `ORDER BY` constrains only the counts, so the query
denotes a relation: `out` is a possible result set iff it lists every
user of the ledger exactly once with its count, in non-increasing count
order. -/
def leaderboard_valid (t : List SolveRow) (out : List (Int × Nat)) : Prop :=
  (out.map Prod.fst).Perm (ledgerUsers t) ∧
    (∀ pr ∈ out, pr.2 = solveCount t pr.1) ∧
    out.Pairwise fun a b => b.2 ≤ a.2

instance (t : List SolveRow) (out : List (Int × Nat)) :
    Decidable (leaderboard_valid t out) := by
  unfold leaderboard_valid; infer_instance

/-- The credential rows of one user. -/
def userRowsFor (t : List UserRow) (uid : Int) : List UserRow :=
  t.filter fun r => r.user_id == uid

/-- How many credential rows one user has. -/
def userKeyCount (t : List UserRow) (uid : Int) : Nat :=
  t.countP fun r => r.user_id == uid

/-- A concrete always-judging environment for the C1 witness. -/
def envAllJudging : SubmitEnv :=
  ⟨some ("u".toList, "pw".toList), true, some "77".toList,
    fun _ => some ⟨"judging".toList, "2ms".toList, "3KB".toList⟩⟩

/-- A concrete environment for the C4 witness: two "judging" polls, then
"accepted". -/
def envJudgeThenAccept : SubmitEnv :=
  ⟨some ("u".toList, "pw".toList), true, some "77".toList,
    fun k => if k < 2 then some ⟨"judging".toList, "2ms".toList, "3KB".toList⟩
      else some ⟨"accepted".toList, "15ms".toList, "2048KB".toList⟩⟩

/-- A concrete environment for the C8 witness. -/
def envNoCreds : SubmitEnv :=
  ⟨none, true, some "77".toList,
    fun _ => some ⟨"accepted".toList, "15ms".toList, "2048KB".toList⟩⟩

/-- A two-user ledger in which both users are tied at one solve. -/
def tiedLedger : List SolveRow :=
  [⟨1, "CF".toList, "1A".toList⟩, ⟨2, "CF".toList, "1A".toList⟩]

/-- Tokenising an all-whitespace string yields no tokens. -/
lemma pySplitAux_nil_of_all_space :
    ∀ s : List Char, (∀ c ∈ s, isPySpace c = true) → pySplitAux [] s = [] := by
  intro s
  induction s with
  | nil => intro _; rfl
  | cons c rest ih =>
    intro h
    have hc : isPySpace c = true := h c (List.mem_cons_self c rest)
    simp only [pySplitAux, hc, if_true, List.isEmpty_nil]
    exact ih fun d hd => h d (List.mem_cons_of_mem c hd)

/-- C10: after a zero exit status, `oj_submit` raises on empty or
all-whitespace stdout (the `[-1]` index on an empty token list) and
otherwise returns the last whitespace-delimited stdout token. -/
theorem oj_submit_id_last_token (s : List Char) :
    (s.all isPySpace = true → oj_submit_id s = none) ∧
    (∀ ts tok, pySplit s = ts ++ [tok] → oj_submit_id s = some tok) := by
  constructor
  · intro h
    have h' : ∀ c ∈ s, isPySpace c = true := by
      simpa [List.all_eq_true] using h
    show (pySplit s).getLast? = none
    simp [pySplit, pySplitAux_nil_of_all_space s h']
  · intro ts tok h
    show (pySplit s).getLast? = some tok
    rw [h, List.getLast?_concat]

/-- Witness for C10 at two concrete stdout values. -/
theorem oj_submit_id_last_token_witness :
    (" \t ".toList.all isPySpace = true ∧ oj_submit_id " \t ".toList = none) ∧
    (pySplit "submitted 123".toList = ["submitted".toList] ++ ["123".toList] ∧
      oj_submit_id "submitted 123".toList = some "123".toList) :=
  ⟨⟨by decide, (oj_submit_id_last_token _).1 (by decide)⟩,
   ⟨by decide, (oj_submit_id_last_token _).2 ["submitted".toList] "123".toList (by decide)⟩⟩

/-- C9: `safe_respond` always attempts the primary reply exactly once;
a permission-denied primary reply triggers exactly one direct message,
and a successful primary reply triggers none. -/
theorem safe_respond_fallback :
    (∀ dm, (safe_respond (some DiscordException.forbidden) dm).primaryAttempts = 1 ∧
      (safe_respond (some DiscordException.forbidden) dm).dmSends = 1) ∧
    (∀ dm, (safe_respond none dm).primaryAttempts = 1 ∧
      (safe_respond none dm).dmSends = 0) :=
  ⟨fun _ => ⟨rfl, rfl⟩, fun _ => ⟨rfl, rfl⟩⟩

/-- The line scan returns a result whenever every line containing the id
splits into at least six tokens. -/
lemma scanLines_isSome (sid : List Char) :
    ∀ lines : List (List Char),
      (∀ l ∈ lines, hasSubstr sid l = true → 5 < (pySplit l).length) →
      (scanLines sid lines).isSome = true := by
  intro lines
  induction lines with
  | nil => intro _; rfl
  | cons line rest ih =>
    intro h
    by_cases hm : hasSubstr sid line = true
    · have hlen := h line (List.mem_cons_self line rest) hm
      simp [scanLines, hm, hlen]
    · simp only [scanLines, hm, Bool.false_eq_true, if_false]
      exact ih fun l hl => h l (List.mem_cons_of_mem line hl)

/-- C2 (amended): the verdict parse returns a result on every input in
which each line containing the id splits into at least six whitespace
tokens; on a matching line with fewer tokens it raises `IndexError`
(modelled as `none`) rather than degrading to the sentinel. -/
theorem oj_get_result_total_on_wide_lines (stdout sid : List Char)
    (h : ∀ l ∈ splitlines stdout, hasSubstr sid l = true → 5 < (pySplit l).length) :
    (oj_get_result stdout sid).isSome = true :=
  scanLines_isSome sid (splitlines stdout) h

/-- Witness for the amended C2 at the documented sample line. -/
theorem oj_get_result_total_on_wide_lines_witness :
    (∀ l ∈ splitlines "42 2024-01-01 123A Accepted 15ms 2048KB".toList,
      hasSubstr "42".toList l = true → 5 < (pySplit l).length) ∧
    (oj_get_result "42 2024-01-01 123A Accepted 15ms 2048KB".toList "42".toList).isSome
      = true :=
  ⟨by decide, oj_get_result_total_on_wide_lines _ _ (by decide)⟩

/-- Counterexample to C2 as stated: a line containing the id with a
single token makes the scan raise `IndexError` (`none`), so the parse is
not total. -/
theorem oj_get_result_short_line_raises :
    oj_get_result "42".toList "42".toList = none := by decide

/-- The line scan agrees with `find?` on the first matching line. -/
lemma scanLines_find (sid : List Char) :
    ∀ lines : List (List Char),
      ((lines.find? fun l => hasSubstr sid l) = none →
        scanLines sid lines = some unknownResult) ∧
      (∀ line, (lines.find? fun l => hasSubstr sid l) = some line →
        ∀ h : 5 < (pySplit line).length,
          scanLines sid lines =
            some ⟨(pySplit line).get ⟨3, by omega⟩, (pySplit line).get ⟨4, by omega⟩,
              (pySplit line).get ⟨5, h⟩⟩) := by
  intro lines
  induction lines with
  | nil =>
    refine ⟨fun _ => rfl, fun line hfind => ?_⟩
    simp at hfind
  | cons l rest ih =>
    by_cases hm : hasSubstr sid l = true
    · constructor
      · intro hfind
        rw [List.find?_cons_of_pos _ hm] at hfind
        exact absurd hfind (by simp)
      · intro line hfind h
        rw [List.find?_cons_of_pos _ hm] at hfind
        obtain rfl : l = line := by simpa using hfind
        simp [scanLines, hm, h]
    · have hm' : hasSubstr sid l = false := by simpa using hm
      constructor
      · intro hfind
        rw [List.find?_cons_of_neg _ (by simp [hm'])] at hfind
        simp only [scanLines, hm', Bool.false_eq_true, if_false]
        exact ih.1 hfind
      · intro line hfind h
        rw [List.find?_cons_of_neg _ (by simp [hm'])] at hfind
        simp only [scanLines, hm', Bool.false_eq_true, if_false]
        exact ih.2 line hfind h

/-- C3: the verdict parse returns the 4th, 5th and 6th whitespace token
of the first stdout line containing the id, and the `Unknown` sentinel
when no line contains it. -/
theorem oj_get_result_first_match (stdout sid : List Char) :
    (((splitlines stdout).find? fun l => hasSubstr sid l) = none →
      oj_get_result stdout sid = some unknownResult) ∧
    (∀ line, ((splitlines stdout).find? fun l => hasSubstr sid l) = some line →
      ∀ h : 5 < (pySplit line).length,
        oj_get_result stdout sid =
          some ⟨(pySplit line).get ⟨3, by omega⟩, (pySplit line).get ⟨4, by omega⟩,
            (pySplit line).get ⟨5, h⟩⟩) :=
  scanLines_find sid (splitlines stdout)

/-- Witness for C3 at the documented sample line and at a no-match
input. -/
theorem oj_get_result_first_match_witness :
    (((splitlines "42 2024-01-01 123A Accepted 15ms 2048KB".toList).find?
        fun l => hasSubstr "42".toList l)
      = some "42 2024-01-01 123A Accepted 15ms 2048KB".toList ∧
      oj_get_result "42 2024-01-01 123A Accepted 15ms 2048KB".toList "42".toList
        = some ⟨"Accepted".toList, "15ms".toList, "2048KB".toList⟩) ∧
    (((splitlines "no such row".toList).find? fun l => hasSubstr "42".toList l) = none ∧
      oj_get_result "no such row".toList "42".toList = some unknownResult) :=
  ⟨⟨by decide,
    ((oj_get_result_first_match "42 2024-01-01 123A Accepted 15ms 2048KB".toList
        "42".toList).2
      "42 2024-01-01 123A Accepted 15ms 2048KB".toList (by decide) (by decide)).trans
      (by decide)⟩,
   ⟨by decide, (oj_get_result_first_match "no such row".toList "42".toList).1 (by decide)⟩⟩

/-- A verdict reading "judging" is one of the in-progress markers. -/
lemma inProgress_of_judging {v : VerdictResult} (h : v.verdict = "judging".toList) :
    inProgress v = true := by
  simp [inProgress, h]

/-- A verdict reading "accepted" is not an in-progress marker. -/
lemma not_inProgress_of_accepted {v : VerdictResult} (h : v.verdict = "accepted".toList) :
    inProgress v = false := by
  simp [inProgress, h]

/-- If every remaining fetch yields a "judging" verdict, the loop runs
all its iterations and ends holding the last fetched verdict. -/
lemma pollAux_all_judging (fetch : Nat → Option VerdictResult) :
    ∀ n calls vd, 0 < n →
      (∀ k, k < n → ∃ v, fetch (calls + k) = some v ∧ v.verdict = "judging".toList) →
      ∃ v, fetch (calls + n - 1) = some v ∧ v.verdict = "judging".toList ∧
        pollAux fetch n calls vd = PollOutcome.finished (some v) (calls + n) := by
  intro n
  induction n with
  | zero => intro calls vd h; omega
  | succ m ih =>
    intro calls vd _ h
    obtain ⟨v0, hv0, hj0⟩ := h 0 (Nat.succ_pos m)
    rw [Nat.add_zero] at hv0
    rcases Nat.eq_zero_or_pos m with hm | hm
    · subst hm
      refine ⟨v0, by simpa using hv0, hj0, ?_⟩
      simp [pollAux, hv0, inProgress_of_judging hj0]
    · obtain ⟨v, hv, hj, hrun⟩ := ih (calls + 1) (some v0) hm
        (fun k hk => by
          have := h (k + 1) (by omega)
          simpa [Nat.add_assoc, Nat.add_comm 1 k] using this)
      refine ⟨v, ?_, hj, ?_⟩
      · have : calls + 1 + m - 1 = calls + (m + 1) - 1 := by omega
        rwa [this] at hv
      · have hstep : pollAux fetch (m + 1) calls vd = pollAux fetch m (calls + 1) (some v0) := by
          simp [pollAux, hv0, inProgress_of_judging hj0]
        rw [hstep, hrun]
        congr 1
        omega

/-- If the first `jj` fetches are "judging" and fetch `jj` is terminal,
the loop stops right after fetch `jj + 1` with that verdict. -/
lemma pollAux_stops_at_terminal (fetch : Nat → Option VerdictResult) :
    ∀ jj n calls vd, jj < n →
      (∀ k, k < jj → ∃ v, fetch (calls + k) = some v ∧ v.verdict = "judging".toList) →
      ∀ av, fetch (calls + jj) = some av → inProgress av = false →
        pollAux fetch n calls vd = PollOutcome.finished (some av) (calls + jj + 1) := by
  intro jj
  induction jj with
  | zero =>
    intro n calls vd hn _ av hav hterm
    obtain ⟨m, rfl⟩ := Nat.exists_eq_succ_of_ne_zero (by omega : n ≠ 0)
    rw [Nat.add_zero] at hav
    simp [pollAux, hav, hterm]
  | succ j ih =>
    intro n calls vd hn h av hav hterm
    obtain ⟨m, rfl⟩ := Nat.exists_eq_succ_of_ne_zero (by omega : n ≠ 0)
    obtain ⟨v0, hv0, hj0⟩ := h 0 (Nat.succ_pos j)
    rw [Nat.add_zero] at hv0
    have hstep : pollAux fetch (m + 1) calls vd = pollAux fetch m (calls + 1) (some v0) := by
      simp [pollAux, hv0, inProgress_of_judging hj0]
    rw [hstep, ih m (calls + 1) (some v0) (by omega)
      (fun k hk => by
        have := h (k + 1) (by omega)
        simpa [Nat.add_assoc, Nat.add_comm 1 k] using this)
      av (by rw [show calls + 1 + j = calls + (j + 1) from by omega]; exact hav) hterm]
    congr 1
    omega

/-- C1 (code behavior at the claim's input): with credentials on file,
a successful login and submission, and a status source answering
"judging" on every poll, `submit` makes exactly thirty fetches and then
replies with the last "judging" verdict — not with the Timeout sentinel,
whose guard `if not verdict_data` can never fire. -/
theorem submit_all_judging_reports_judging (env : SubmitEnv) (usePg : Bool)
    (ledger : List SolveRow) (uid : Int) (j p : List Char)
    (hc : env.credRow.isSome = true) (hl : env.loginOk = true)
    (hs : env.submitId.isSome = true)
    (hf : ∀ k, k < 30 → ∃ v, env.fetch k = some v ∧ v.verdict = "judging".toList) :
    (submit env usePg ledger uid j p).fetchCalls = 30 ∧
    ∃ v, (submit env usePg ledger uid j p).reply = Reply.verdictEmbed v ∧
      v.verdict = "judging".toList := by
  obtain ⟨cr, hcr⟩ := Option.isSome_iff_exists.mp hc
  obtain ⟨sid, hsid⟩ := Option.isSome_iff_exists.mp hs
  obtain ⟨v, hv, hj, hrun⟩ :=
    pollAux_all_judging env.fetch 30 0 none (by omega) (by simpa using hf)
  have hpoll : pollResult env.fetch = PollOutcome.finished (some v) 30 := by
    simpa [pollResult] using hrun
  refine ⟨?_, v, ?_, hj⟩ <;>
    simp [submit, hcr, hl, hsid, hpoll]

/-- Witness for C1 at a concrete always-judging environment. -/
theorem submit_all_judging_reports_judging_witness :
    (envAllJudging.credRow.isSome = true ∧ envAllJudging.loginOk = true ∧
      envAllJudging.submitId.isSome = true ∧
      (∀ k, k < 30 → ∃ v, envAllJudging.fetch k = some v ∧
        v.verdict = "judging".toList)) ∧
    ((submit envAllJudging true [] 1 "CF".toList "1A".toList).fetchCalls = 30 ∧
      ∃ v, (submit envAllJudging true [] 1 "CF".toList "1A".toList).reply
          = Reply.verdictEmbed v ∧ v.verdict = "judging".toList) :=
  ⟨⟨rfl, rfl, rfl, fun _ _ => ⟨_, rfl, rfl⟩⟩,
   submit_all_judging_reports_judging envAllJudging true [] 1 "CF".toList "1A".toList
     rfl rfl rfl (fun _ _ => ⟨_, rfl, rfl⟩)⟩

/-- The recorded triple is present after a Postgres solve insert. -/
lemma mem_pg_record_solve (t : List SolveRow) (uid : Int) (j p : List Char) :
    (⟨uid, j, p⟩ : SolveRow) ∈ pg_record_solve t uid j p := by
  by_cases h : (⟨uid, j, p⟩ : SolveRow) ∈ t <;> simp [pg_record_solve, h]

/-- The two solve inserts execute the same statement. -/
lemma sqlite_record_solve_eq_pg (t : List SolveRow) (uid : Int) (j p : List Char) :
    sqlite_record_solve t uid j p = pg_record_solve t uid j p := rfl

/-- An "accepted" final verdict makes step 4 insert the solve. -/
lemma record_if_accepted_accepted (usePg : Bool) (t : List SolveRow) (uid : Int)
    (j p : List Char) {v : VerdictResult} (h : v.verdict = "accepted".toList) :
    (⟨uid, j, p⟩ : SolveRow) ∈ record_if_accepted usePg t uid j p v := by
  have hl : v.verdict.map Char.toLower = "accepted".toList := by
    rw [h]; decide
  cases usePg <;>
    simp [record_if_accepted, hl, sqlite_record_solve_eq_pg, mem_pg_record_solve]

/-- C4: with credentials, login and submission in place, a status source
answering "judging" on the first `N` polls and "accepted" on poll `N+1`
(with `N < 30`) makes `submit` stop after exactly `N+1` fetches and
record the solve triple in the ledger, on either backend. -/
theorem submit_stops_early_and_records (env : SubmitEnv) (usePg : Bool)
    (ledger : List SolveRow) (uid : Int) (j p : List Char) (N : Nat)
    (hc : env.credRow.isSome = true) (hl : env.loginOk = true)
    (hs : env.submitId.isSome = true) (hN : N < 30)
    (hf : ∀ k, k < N → ∃ v, env.fetch k = some v ∧ v.verdict = "judging".toList)
    (ha : ∃ av, env.fetch N = some av ∧ av.verdict = "accepted".toList) :
    (submit env usePg ledger uid j p).fetchCalls = N + 1 ∧
    (⟨uid, j, p⟩ : SolveRow) ∈ (submit env usePg ledger uid j p).ledger := by
  obtain ⟨cr, hcr⟩ := Option.isSome_iff_exists.mp hc
  obtain ⟨sid, hsid⟩ := Option.isSome_iff_exists.mp hs
  obtain ⟨av, hav, hacc⟩ := ha
  have hrun : pollAux env.fetch 30 0 none = PollOutcome.finished (some av) (0 + N + 1) :=
    pollAux_stops_at_terminal env.fetch N 30 0 none hN (by simpa using hf)
      av (by simpa using hav) (not_inProgress_of_accepted hacc)
  have hpoll : pollResult env.fetch = PollOutcome.finished (some av) (N + 1) := by
    simpa [pollResult] using hrun
  constructor
  · simp [submit, hcr, hl, hsid, hpoll]
  · simp only [submit, hcr, hl, hsid, hpoll, if_true, Option.getD_some]
    exact record_if_accepted_accepted usePg ledger uid j p hacc

/-- Witness for C4 at `N = 2`. -/
theorem submit_stops_early_and_records_witness :
    (envJudgeThenAccept.credRow.isSome = true ∧ envJudgeThenAccept.loginOk = true ∧
      envJudgeThenAccept.submitId.isSome = true ∧ 2 < 30 ∧
      (∀ k, k < 2 → ∃ v, envJudgeThenAccept.fetch k = some v ∧
        v.verdict = "judging".toList) ∧
      (∃ av, envJudgeThenAccept.fetch 2 = some av ∧
        av.verdict = "accepted".toList)) ∧
    ((submit envJudgeThenAccept false [] 1 "CF".toList "1A".toList).fetchCalls = 2 + 1 ∧
      (⟨1, "CF".toList, "1A".toList⟩ : SolveRow)
        ∈ (submit envJudgeThenAccept false [] 1 "CF".toList "1A".toList).ledger) :=
  ⟨⟨rfl, rfl, rfl, by omega, fun k hk => ⟨_, by interval_cases k <;> rfl, rfl⟩,
    ⟨_, rfl, rfl⟩⟩,
   submit_stops_early_and_records envJudgeThenAccept false [] 1 "CF".toList "1A".toList 2
     rfl rfl rfl (by omega) (fun k hk => ⟨_, by interval_cases k <;> rfl, rfl⟩)
     ⟨_, rfl, rfl⟩⟩

/-- C8: with no credential row on file, `submit` replies with the
link-credentials prompt and performs no login, no staging, no
submission, no poll and no ledger write. -/
theorem submit_not_linked (env : SubmitEnv) (usePg : Bool) (ledger : List SolveRow)
    (uid : Int) (j p : List Char) (h : env.credRow = none) :
    submit env usePg ledger uid j p = ⟨0, 0, 0, 0, ledger, Reply.notLinked⟩ := by
  simp [submit, h]

/-- Witness for C8. -/
theorem submit_not_linked_witness :
    envNoCreds.credRow = none ∧
    submit envNoCreds true [] 1 "CF".toList "1A".toList
      = ⟨0, 0, 0, 0, [], Reply.notLinked⟩ :=
  ⟨rfl, submit_not_linked envNoCreds true [] 1 "CF".toList "1A".toList rfl⟩

lemma userKeyCount_eq_length (t : List UserRow) (uid : Int) :
    userKeyCount t uid = (userRowsFor t uid).length :=
  List.countP_eq_length_filter _ _

/-- The two credential upserts execute the same statement. -/
lemma sqlite_upsert_user_eq_pg :
    ∀ (t : List UserRow) (uid : Int) (un pw : List Char),
      sqlite_upsert_user t uid un pw = pg_upsert_user t uid un pw := by
  intro t
  induction t with
  | nil => intro uid un pw; rfl
  | cons r rest ih =>
    intro uid un pw
    by_cases h : r.user_id = uid <;>
      simp [sqlite_upsert_user, pg_upsert_user, h, ih]

/-- On a table with at most one row for `uid`, the upsert leaves exactly
that user's new row. -/
lemma pg_upsert_user_rowsFor (uid : Int) (un pw : List Char) :
    ∀ t : List UserRow, userKeyCount t uid ≤ 1 →
      userRowsFor (pg_upsert_user t uid un pw) uid = [⟨uid, un, pw⟩] := by
  intro t
  induction t with
  | nil => intro _; simp [pg_upsert_user, userRowsFor]
  | cons r rest ih =>
    intro h
    by_cases hr : r.user_id = uid
    · have hcnt : userKeyCount rest uid = 0 := by
        have := h
        simp only [userKeyCount, List.countP_cons, hr, beq_self_eq_true, if_true] at this ⊢
        omega
      have hrest : List.filter (fun r => r.user_id == uid) rest = [] := by
        rw [List.filter_eq_nil_iff]
        intro a ha
        have := List.countP_eq_zero.mp hcnt a ha
        simpa using this
      simp [pg_upsert_user, hr, userRowsFor, List.filter_cons, hrest]
    · have hcnt : userKeyCount rest uid ≤ 1 := by
        have := h
        simp only [userKeyCount, List.countP_cons] at this ⊢
        simp only [beq_iff_eq, hr, if_false] at this
        omega
      have hskip : (r.user_id == uid) = false := by simpa using hr
      have ihr := ih hcnt
      simp only [userRowsFor] at ihr
      simp [pg_upsert_user, hr, userRowsFor, List.filter_cons, hskip, ihr]

/-- C5: on either backend, running the credential upsert twice for one
user with different values leaves exactly one row for that user, holding
the values of the second upsert. -/
theorem upsert_twice_keeps_latest (t : List UserRow) (uid : Int)
    (u1 p1 u2 p2 : List Char) (h : userKeyCount t uid ≤ 1) :
    userRowsFor (pg_upsert_user (pg_upsert_user t uid u1 p1) uid u2 p2) uid
      = [⟨uid, u2, p2⟩] ∧
    userRowsFor (sqlite_upsert_user (sqlite_upsert_user t uid u1 p1) uid u2 p2) uid
      = [⟨uid, u2, p2⟩] := by
  have h1 : userRowsFor (pg_upsert_user t uid u1 p1) uid = [⟨uid, u1, p1⟩] :=
    pg_upsert_user_rowsFor uid u1 p1 t h
  have h1c : userKeyCount (pg_upsert_user t uid u1 p1) uid ≤ 1 := by
    simp [userKeyCount_eq_length, h1]
  refine ⟨pg_upsert_user_rowsFor uid u2 p2 _ h1c, ?_⟩
  rw [sqlite_upsert_user_eq_pg, sqlite_upsert_user_eq_pg]
  exact pg_upsert_user_rowsFor uid u2 p2 _ h1c

/-- Witness for C5 on a table that already holds a row for the user. -/
theorem upsert_twice_keeps_latest_witness :
    userKeyCount [(⟨7, "old".toList, "oldpw".toList⟩ : UserRow)] 7 ≤ 1 ∧
    (userRowsFor
        (pg_upsert_user (pg_upsert_user [⟨7, "old".toList, "oldpw".toList⟩]
          7 "a".toList "b".toList) 7 "c".toList "d".toList) 7
      = [⟨7, "c".toList, "d".toList⟩] ∧
    userRowsFor
        (sqlite_upsert_user (sqlite_upsert_user [⟨7, "old".toList, "oldpw".toList⟩]
          7 "a".toList "b".toList) 7 "c".toList "d".toList) 7
      = [⟨7, "c".toList, "d".toList⟩]) :=
  ⟨by decide,
   upsert_twice_keeps_latest [⟨7, "old".toList, "oldpw".toList⟩] 7
     "a".toList "b".toList "c".toList "d".toList (by decide)⟩

/-- A no-op insert when the triple already exists. -/
lemma pg_record_solve_mem_eq {t : List SolveRow} {uid : Int} {j p : List Char}
    (h : (⟨uid, j, p⟩ : SolveRow) ∈ t) : pg_record_solve t uid j p = t := by
  simp [pg_record_solve, h]

/-- One record operation leaves exactly one row for the recorded triple
on a duplicate-free table. -/
lemma pg_record_solve_count {t : List SolveRow} {uid : Int} {j p : List Char}
    (h : t.Nodup) :
    (pg_record_solve t uid j p).count (⟨uid, j, p⟩ : SolveRow) = 1 := by
  by_cases hm : (⟨uid, j, p⟩ : SolveRow) ∈ t
  · rw [pg_record_solve_mem_eq hm]
    have hle := List.nodup_iff_count_le_one.mp h (⟨uid, j, p⟩ : SolveRow)
    have hpos : 0 < t.count (⟨uid, j, p⟩ : SolveRow) := List.count_pos_iff.mpr hm
    omega
  · simp [pg_record_solve, hm, List.count_append, List.count_eq_zero_of_not_mem hm]

/-- One record operation preserves freedom from duplicate rows. -/
lemma pg_record_solve_nodup {t : List SolveRow} {uid : Int} {j p : List Char}
    (h : t.Nodup) : (pg_record_solve t uid j p).Nodup := by
  by_cases hm : (⟨uid, j, p⟩ : SolveRow) ∈ t
  · rwa [pg_record_solve_mem_eq hm]
  · simp [pg_record_solve, hm, List.nodup_append, h]

/-- C6: on either backend, recording the same (user, judge, problem)
solve twice leaves exactly one ledger row for the triple, and the
record operation preserves the uniqueness invariant. -/
theorem record_twice_single_row (t : List SolveRow) (uid : Int) (j p : List Char)
    (h : t.Nodup) :
    ((pg_record_solve (pg_record_solve t uid j p) uid j p).count
        (⟨uid, j, p⟩ : SolveRow) = 1 ∧
      (pg_record_solve t uid j p).Nodup) ∧
    ((sqlite_record_solve (sqlite_record_solve t uid j p) uid j p).count
        (⟨uid, j, p⟩ : SolveRow) = 1 ∧
      (sqlite_record_solve t uid j p).Nodup) := by
  have hidem : pg_record_solve (pg_record_solve t uid j p) uid j p
      = pg_record_solve t uid j p :=
    pg_record_solve_mem_eq (mem_pg_record_solve t uid j p)
  refine ⟨⟨?_, pg_record_solve_nodup h⟩, ?_, ?_⟩
  · rw [hidem]; exact pg_record_solve_count h
  · rw [sqlite_record_solve_eq_pg, sqlite_record_solve_eq_pg, hidem]
    exact pg_record_solve_count h
  · rw [sqlite_record_solve_eq_pg]; exact pg_record_solve_nodup h

/-- Witness for C6 on a small duplicate-free ledger. -/
theorem record_twice_single_row_witness :
    ([(⟨2, "AT".toList, "9Z".toList⟩ : SolveRow)] : List SolveRow).Nodup ∧
    (((pg_record_solve (pg_record_solve [⟨2, "AT".toList, "9Z".toList⟩]
          1 "CF".toList "1A".toList) 1 "CF".toList "1A".toList).count
        (⟨1, "CF".toList, "1A".toList⟩ : SolveRow) = 1 ∧
      (pg_record_solve [⟨2, "AT".toList, "9Z".toList⟩]
        1 "CF".toList "1A".toList).Nodup) ∧
    ((sqlite_record_solve (sqlite_record_solve [⟨2, "AT".toList, "9Z".toList⟩]
          1 "CF".toList "1A".toList) 1 "CF".toList "1A".toList).count
        (⟨1, "CF".toList, "1A".toList⟩ : SolveRow) = 1 ∧
      (sqlite_record_solve [⟨2, "AT".toList, "9Z".toList⟩]
        1 "CF".toList "1A".toList).Nodup)) :=
  ⟨by decide,
   record_twice_single_row [⟨2, "AT".toList, "9Z".toList⟩] 1
     "CF".toList "1A".toList (by decide)⟩

/-- Counterexample to C7 as stated: on a tied ledger the query admits
two different result orders, so it applies no defined deterministic
tie-break. -/
theorem leaderboard_tie_order_not_determined :
    leaderboard_valid tiedLedger [(1, 1), (2, 1)] ∧
    leaderboard_valid tiedLedger [(2, 1), (1, 1)] ∧
    ([(1, 1), (2, 1)] : List (Int × Nat)) ≠ [(2, 1), (1, 1)] := by
  refine ⟨by decide, by decide, by decide⟩

/-- C7 (amended): every result set of the leaderboard query lists each
user with at least one solve exactly once, with the correct solve count,
ordered non-increasing by count; the order among tied counts is left to
the backend. -/
theorem leaderboard_sorted_and_complete (t : List SolveRow) (out : List (Int × Nat))
    (h : leaderboard_valid t out) :
    (out.map Prod.fst).Nodup ∧
    (∀ uid : Int, uid ∈ out.map Prod.fst ↔ 0 < solveCount t uid) ∧
    (∀ pr ∈ out, pr.2 = solveCount t pr.1) ∧
    out.Pairwise (fun a b => b.2 ≤ a.2) := by
  obtain ⟨hperm, hcnt, hsort⟩ := h
  refine ⟨hperm.nodup_iff.mpr (List.nodup_dedup _), ?_, hcnt, hsort⟩
  intro uid
  rw [hperm.mem_iff]
  unfold ledgerUsers
  rw [List.mem_dedup, List.mem_map]
  unfold solveCount
  rw [List.countP_pos_iff]
  constructor
  · rintro ⟨r, hr, rfl⟩
    exact ⟨r, hr, by simp⟩
  · rintro ⟨r, hr, hid⟩
    exact ⟨r, hr, by simpa using hid⟩

/-- Witness for the amended C7 on a one-user ledger. -/
theorem leaderboard_sorted_and_complete_witness :
    leaderboard_valid [(⟨1, "CF".toList, "1A".toList⟩ : SolveRow)] [(1, 1)] ∧
    ((([(1, 1)] : List (Int × Nat)).map Prod.fst).Nodup ∧
      (∀ uid : Int, uid ∈ ([(1, 1)] : List (Int × Nat)).map Prod.fst ↔
        0 < solveCount [⟨1, "CF".toList, "1A".toList⟩] uid) ∧
      (∀ pr ∈ ([(1, 1)] : List (Int × Nat)),
        pr.2 = solveCount [⟨1, "CF".toList, "1A".toList⟩] pr.1) ∧
      ([(1, 1)] : List (Int × Nat)).Pairwise (fun a b => b.2 ≤ a.2)) :=
  ⟨by decide,
   leaderboard_sorted_and_complete [⟨1, "CF".toList, "1A".toList⟩] [(1, 1)] (by decide)⟩

